import Mathlib

/-!
Verification development for the breathing-rate analysis script (src/bpm.py).

The script reads a JSON log of records with an epoch-seconds timestamp field
named ts and a list field named rr of RR-interval measurements, computes the
per-record mean RR value, drops records whose rr list is missing or empty,
detects peaks in the clean rr-mean signal (scipy.signal.find_peaks with the
60th percentile as height threshold and minimum index distance 5), truncates
the elapsed time between consecutive accepted peaks to whole seconds,
keeps intervals inside the inclusive band 2..10 seconds, converts them to
breaths per minute rounded to one decimal, timestamps each interval with the
display string of the later peak, sorts rows by that display string and
writes a CSV.  This file is a shallow embedding of that pipeline:
pure Lean functions mirror the script statement by statement, using exact
rational arithmetic for the float values and integer nanoseconds for the
pandas datetime64 values.

Several core rational operations are irreducible by default, which blocks
kernel evaluation of concrete instances; we relax them to semireducible.
-/

attribute [local semireducible] Rat.add Rat.mul Rat.sub Rat.inv

/-! ### Calendar and time-zone model

The script converts epoch timestamps with
pd.to_datetime(df.ts, unit='s', utc=True).dt.tz_convert('US/Pacific') and
formats them with strftime('%H:%M:%S') (bpm.py lines 43-44).  We model the
US/Pacific zone with the post-2007 United States daylight-saving rule from
the tz database: UTC-8 in standard time, UTC-7 from the second Sunday of
March 02:00 local standard time (10:00 UTC) until the first Sunday of
November 02:00 local daylight time (09:00 UTC).  The civil-calendar
conversions below are the standard era-based algorithms.
-/

/-- Days from 1970-01-01 to the civil date y-m-d (proleptic Gregorian). -/
def daysFromCivil (y m d : ℤ) : ℤ :=
  let y2 := if m ≤ 2 then y - 1 else y
  let era := Int.fdiv y2 400
  let yoe := y2 - era * 400
  let mp := if 2 < m then m - 3 else m + 9
  let doy := Int.fdiv (153 * mp + 2) 5 + d - 1
  let doe := yoe * 365 + Int.fdiv yoe 4 - Int.fdiv yoe 100 + doy
  era * 146097 + doe - 719468

/-- The civil year containing the given day number (days since 1970-01-01). -/
def yearFromEpochDay (day : ℤ) : ℤ :=
  let z := day + 719468
  let era := Int.fdiv z 146097
  let doe := z - era * 146097
  let yoe := Int.fdiv (doe - Int.fdiv doe 1460 + Int.fdiv doe 36524 - Int.fdiv doe 146096) 365
  let y := yoe + era * 400
  let doy := doe - (365 * yoe + Int.fdiv yoe 4 - Int.fdiv yoe 100)
  let mp := Int.fdiv (5 * doy + 2) 153
  let m := if mp < 10 then mp + 3 else mp - 9
  if m ≤ 2 then y + 1 else y

/-- First day number that is a Sunday and is on or after the given day number.
Day 0 (1970-01-01) was a Thursday, so day + 4 is congruent to the weekday
with Sunday = 0. -/
def firstSundayOnOrAfter (day : ℤ) : ℤ :=
  day + Int.fmod (7 - Int.fmod (day + 4) 7) 7

/-- Epoch second at which daylight saving starts in year y in US/Pacific:
second Sunday of March, 02:00 standard time = 10:00 UTC. -/
def dstStartEpochSec (y : ℤ) : ℤ :=
  (firstSundayOnOrAfter (daysFromCivil y 3 1) + 7) * 86400 + 36000

/-- Epoch second at which daylight saving ends in year y in US/Pacific:
first Sunday of November, 02:00 daylight time = 09:00 UTC. -/
def dstEndEpochSec (y : ℤ) : ℤ :=
  firstSundayOnOrAfter (daysFromCivil y 11 1) * 86400 + 32400

/-- UTC offset, in seconds, of the US/Pacific zone at the given epoch second. -/
def pacificUtcOffsetSec (t : ℤ) : ℤ :=
  let y := yearFromEpochDay (Int.fdiv t 86400)
  if dstStartEpochSec y ≤ t ∧ t < dstEndEpochSec y then -25200 else -28800

/-- Two-digit zero-padded decimal rendering of n, as strftime uses. -/
def pad2 (n : ℕ) : String :=
  if n < 10 then "0" ++ toString n else toString n

/-- strftime('%H:%M:%S') of an epoch-nanosecond instant displayed in
US/Pacific (bpm.py line 44).  datetime64 formatting drops the sub-second
part, hence the floor division to seconds. -/
def pacificHMS (ns : ℤ) : String :=
  let s := Int.fdiv ns 1000000000
  let ls := s + pacificUtcOffsetSec s
  let sod := (Int.fmod ls 86400).toNat
  pad2 (sod / 3600) ++ ":" ++ pad2 (sod % 3600 / 60) ++ ":" ++ pad2 (sod % 60)

/-! ### Loader and cleaner (bpm.py lines 37-53) -/

/-- One parsed JSON record: ts is the epoch-seconds timestamp (fractional
allowed); rr is the list of RR measurements, none when the field is absent
or not a list. -/
structure RawRecord where
  ts : ℚ
  rr : Option (List ℚ)
deriving DecidableEq, Repr

/-- Line 40: df.rr.apply(lambda x: np.mean(x) if isinstance(x, list) and
len(x) > 0 else np.nan).  none models NaN. -/
def rrMean (r : RawRecord) : Option ℚ :=
  match r.rr with
  | some l => if 0 < l.length then some (l.sum / (l.length : ℚ)) else none
  | none => none

/-- Line 43: pd.to_datetime(ts, unit='s') stores the instant as integer
nanoseconds since the epoch. -/
def tsNs (r : RawRecord) : ℤ :=
  Rat.floor (r.ts * 1000000000)

/-- A record surviving the NaN filter: its datetime64 value (integer
nanoseconds), its mean RR value, and its formatted display string. -/
structure CleanSample where
  tsNs : ℤ
  rrMean : ℚ
  timeStr : String
deriving DecidableEq, Repr, Inhabited

/-- Lines 50-53: the clean mask keeps the rows whose rr_mean is not NaN;
clean_rr, clean_time and clean_time_formatted are the aligned projections
of those rows. -/
def cleanOf (records : List RawRecord) : List CleanSample :=
  records.filterMap (fun r => (rrMean r).map (fun m => ⟨tsNs r, m, pacificHMS (tsNs r)⟩))

/-- clean_rr: the clean rr-mean signal the peak finder scans. -/
def signalOf (records : List RawRecord) : List ℚ :=
  (cleanOf records).map (fun c => c.rrMean)

/-! ### scipy.signal.find_peaks model (bpm.py lines 59-61)

find_peaks first locates strict local maxima (with plateau handling),
then filters them by the height threshold, then enforces the minimum
index distance by non-maximum suppression.  The two loop translations
below use an explicit iteration budget in place of the C while loops;
the scan index grows by at least one per iteration and stops before
x.length, so a budget of x.length steps is never exhausted.
-/

/-- Inner plateau scan of scipy _local_maxima_1d: starting at i, advance
while the value still equals v and the index is before the last position. -/
def plateauEnd (x : List ℚ) (v : ℚ) : ℕ → ℕ → ℕ
  | 0, i => i
  | fuel + 1, i => if i + 1 < x.length ∧ x.getD i 0 = v then plateauEnd x v fuel (i + 1) else i

/-- Main loop of scipy _local_maxima_1d: i runs from 1 to x.length - 2;
on a strict rise the plateau is scanned ahead, and if the signal falls
after it the plateau midpoint is recorded and the scan resumes after the
plateau. -/
def localMaximaAux (x : List ℚ) : ℕ → ℕ → List ℕ
  | 0, _ => []
  | fuel + 1, i =>
    if i + 1 < x.length then
      if x.getD (i - 1) 0 < x.getD i 0 then
        let j := plateauEnd x (x.getD i 0) x.length (i + 1)
        if x.getD j 0 < x.getD i 0 then
          (i + (j - 1)) / 2 :: localMaximaAux x fuel (j + 1)
        else
          localMaximaAux x fuel (i + 1)
      else
        localMaximaAux x fuel (i + 1)
    else []

/-- scipy _local_maxima_1d: indices of the (plateau-midpoint) strict local
maxima of x; endpoints are never maxima. -/
def localMaxima (x : List ℚ) : List ℕ :=
  localMaximaAux x x.length 1

/-- np.percentile(a, 60) with the default linear interpolation: with the
values sorted ascending and the virtual index h = 0.6 * (n - 1), the result
is s[floor h] + (h - floor h) * (s[floor h + 1] - s[floor h]). -/
def percentile60 (a : List ℚ) : ℚ :=
  let s := a.insertionSort (fun p q => p ≤ q)
  let n := a.length
  let h : ℚ := (((n : ℤ) - 1 : ℤ) : ℚ) * 3 / 5
  let lo := (Rat.floor h).toNat
  let frac := h - ((Rat.floor h : ℤ) : ℚ)
  s.getD lo 0 + frac * (s.getD (lo + 1) 0 - s.getD lo 0)

/-- The height filter of find_peaks: keep the local maxima whose value is
at least the threshold (scipy _select_by_property uses hmin <= height). -/
def candidatePeaks (x : List ℚ) : List ℕ :=
  (localMaxima x).filter (fun p => decide (percentile60 x ≤ x.getD p 0))

/-- One step of scipy _select_by_peak_distance: if entry j is still kept,
un-keep every other entry whose peak position is within the minimum
distance of entry j's position. -/
def suppressStep (peaks : List ℕ) (d : ℕ) (keep : List Bool) (j : ℕ) : List Bool :=
  if keep.getD j false then
    (List.range keep.length).map (fun k =>
      if k ≠ j ∧ Nat.dist (peaks.getD k 0) (peaks.getD j 0) < d then false
      else keep.getD k false)
  else keep

/-- The processing order of _select_by_peak_distance: entries sorted by
priority (peak height) in decreasing order.  numpy argsort with the default
kind leaves the order of equal priorities unspecified; this model fixes the
tie order (by original index), which only matters for inputs containing
exactly equal candidate heights. -/
def priorityOrder (heights : List ℚ) (n : ℕ) : List ℕ :=
  (List.range n).insertionSort (fun a b => heights.getD b 0 ≤ heights.getD a 0)

/-- The keep flags after the whole non-maximum-suppression pass. -/
def distanceKeep (peaks : List ℕ) (heights : List ℚ) (d : ℕ) : List Bool :=
  (priorityOrder heights peaks.length).foldl (suppressStep peaks d) (List.replicate peaks.length true)

/-- scipy _select_by_peak_distance: the subsequence of peaks whose keep
flag survives. -/
def selectByPeakDistance (peaks : List ℕ) (heights : List ℚ) (d : ℕ) : List ℕ :=
  let keep := distanceKeep peaks heights d
  ((List.range peaks.length).filter (fun k => keep.getD k false)).map (fun k => peaks.getD k 0)

/-- find_peaks(clean_rr, height=np.percentile(clean_rr, 60), distance=5)
(bpm.py lines 59-61). -/
def findPeaks (x : List ℚ) : List ℕ :=
  let cands := candidatePeaks x
  selectByPeakDistance cands (cands.map (fun p => x.getD p 0)) 5

/-- The accepted peaks of the pipeline, as indices into the clean sequence. -/
def peaksOf (records : List RawRecord) : List ℕ :=
  findPeaks (signalOf records)

/-! ### Intervals, band filter and rate conversion (bpm.py lines 65-93) -/

/-- Casting a nanosecond timedelta to timedelta64[s] divides by 10^9 with
C-style truncation toward zero (line 67). -/
def truncSecOfNs (d : ℤ) : ℤ :=
  d.sign * ((d.natAbs / 1000000000 : ℕ) : ℤ)

/-- peak_times (line 66): the datetime64 value of each accepted peak. -/
def peakTsOf (records : List RawRecord) : List ℤ :=
  (peaksOf records).map (fun p => ((cleanOf records).getD p default).tsNs)

/-- peak_time_diffs (line 67): np.diff of the peak times cast to whole
seconds. -/
def diffsOf (records : List RawRecord) : List ℤ :=
  List.zipWith (fun a b => truncSecOfNs (b - a)) (peakTsOf records) (peakTsOf records).tail

/-- The exact elapsed time, in seconds, between consecutive accepted peaks -
what the diffs would be without the cast to whole seconds. -/
def exactDiffsOf (records : List RawRecord) : List ℚ :=
  List.zipWith (fun a b => ((b - a : ℤ) : ℚ) / 1000000000) (peakTsOf records) (peakTsOf records).tail

/-- valid_mask (line 74): the interval lies in the inclusive band 2..10. -/
def maskOf (records : List RawRecord) : List Bool :=
  (diffsOf records).map (fun d => decide (2 ≤ d ∧ d ≤ 10))

/-- numpy boolean-mask indexing a[mask]. -/
def maskSelect {α : Type} (xs : List α) (m : List Bool) : List α :=
  ((xs.zip m).filter (fun p => p.2)).map (fun p => p.1)

/-- valid_intervals (line 75). -/
def validIntervalsOf (records : List RawRecord) : List ℤ :=
  maskSelect (diffsOf records) (maskOf records)

/-- valid_peak_indices (line 79): np.arange(1, len(peaks))[valid_mask]. -/
def validPeakIndicesOf (records : List RawRecord) : List ℕ :=
  maskSelect (List.range' 1 ((peaksOf records).length - 1)) (maskOf records)

/-- Round to the nearest integer with ties to even, as np.round does. -/
def roundHalfEven (q : ℚ) : ℤ :=
  let f := Rat.floor q
  let r := q - (f : ℚ)
  if r < 1 / 2 then f
  else if 1 / 2 < r then f + 1
  else if f % 2 = 0 then f else f + 1

/-- np.round(x, 1) (line 93). -/
def round1 (q : ℚ) : ℚ :=
  ((roundHalfEven (q * 10) : ℤ) : ℚ) / 10

/-- The display string of clean sample k (clean_time_formatted.iloc[k]). -/
def timeAtIndex (records : List RawRecord) (k : ℕ) : String :=
  ((cleanOf records).getD k default).timeStr

/-- One output row: the display time string and the rounded bpm value
(the output DataFrame of lines 91-94). -/
structure BreathingRateRecord where
  time : String
  bpm : ℚ
deriving DecidableEq, Repr

/-- The output rows in detection order (lines 80-94): times from the later
peak of each surviving pair, bpm = 60 / interval rounded to one decimal. -/
def rowsOf (records : List RawRecord) : List BreathingRateRecord :=
  let times := (validPeakIndicesOf records).map
    (fun k => timeAtIndex records ((peaksOf records).getD k 0))
  let bpms := (validIntervalsOf records).map (fun d => round1 (60 / ((d : ℤ) : ℚ)))
  (times.zip bpms).map (fun p => ⟨p.1, p.2⟩)

/-- Python string comparison: lexicographic by code point. -/
def lexLeB : List Char → List Char → Bool
  | [], _ => true
  | _ :: _, [] => false
  | c :: cs, d :: ds =>
    if c.toNat < d.toNat then true
    else if d.toNat < c.toNat then false
    else lexLeB cs ds

/-- output_df.sort_values('time') (line 97): rows ordered by the display
string.  pandas defaults to numpy quicksort, whose order among equal keys
is not contractually specified; this model is one sorting function with a
fixed tie order, correct on the ordering itself. -/
def sortRows (rows : List BreathingRateRecord) : List BreathingRateRecord :=
  rows.insertionSort (fun a b => lexLeB a.time.data b.time.data = true)

/-! ### The whole try block and the process behavior (bpm.py lines 26-112) -/

/-- The body of the try block of analyze_breathing_rate.  The three error
cases are the statements that raise on degenerate data, in the order the
script reaches them: df.rr raises KeyError when the DataFrame is empty
(line 40), np.percentile raises on an empty clean signal (line 60), and
np.min raises on an empty valid_bpm array (line 88).  Any raise is caught
by the except handler. -/
def pipelineCompute (records : List RawRecord) : Except String (List BreathingRateRecord) :=
  if records.length = 0 then
    .error "KeyError: rr"
  else if (cleanOf records).length = 0 then
    .error "zero-size array to reduction operation"
  else if (validIntervalsOf records).length = 0 then
    .error "zero-size array to reduction operation minimum which has no identity"
  else
    .ok (sortRows (rowsOf records))

/-- How a run may find its input: the path does not exist, the file exists
but json.load or the record structure fails, or records parse fine. -/
inductive InputSource where
  | missing
  | unparsable
  | parsed (records : List RawRecord)

/-- Observable outcome of one process run: the exit status, the output file
content (none when no file was written), what was printed to the error
stream, and whether an error diagnostic was printed to standard output. -/
structure RunOutcome where
  exitCode : ℕ
  outputFile : Option (List BreathingRateRecord)
  stderrLines : List String
  stdoutDiagnostic : Bool
deriving DecidableEq, Repr

/-- analyze_breathing_rate as a whole process step.  A missing input path
prints the error with print() - standard output, not the error stream -
and exits 1 before the try block (lines 27-29); an exception inside the
try block (parse failure or degenerate computation) is printed with
print() and exits 1 (lines 110-112); otherwise the CSV is written and the
function returns normally, exit status 0.  Nothing is ever written to the
error stream. -/
def analyzeBreathingRate (inp : InputSource) : RunOutcome :=
  match inp with
  | .missing => ⟨1, none, [], true⟩
  | .unparsable => ⟨1, none, [], true⟩
  | .parsed records =>
    match pipelineCompute records with
    | .error _ => ⟨1, none, [], true⟩
    | .ok rows => ⟨0, some rows, [], false⟩

deriving instance DecidableEq for Except

/-! ### Concrete inputs used to instantiate the theorems

demoMidnight: sixteen one-element rr records, one per second, spanning
local midnight of 2025-06-11/12 in US/Pacific (daylight time, UTC-7;
epoch 1749711600 is 2025-06-12 00:00:00 PDT).  The three tall samples at
clean indices 3, 8 and 14 are the accepted peaks; their timestamps are
23:59:50, 23:59:55 and 00:00:01 local, five and six seconds apart.
-/

def demoMidnight : List RawRecord :=
  [⟨1749711587, some [1]⟩, ⟨1749711588, some [1]⟩, ⟨1749711589, some [1]⟩,
   ⟨1749711590, some [10]⟩, ⟨1749711591, some [1]⟩, ⟨1749711592, some [1]⟩,
   ⟨1749711593, some [1]⟩, ⟨1749711594, some [1]⟩, ⟨1749711595, some [11]⟩,
   ⟨1749711596, some [1]⟩, ⟨1749711597, some [1]⟩, ⟨1749711598, some [1]⟩,
   ⟨1749711599, some [1]⟩, ⟨1749711600, some [1]⟩, ⟨1749711601, some [12]⟩,
   ⟨1749711602, some [1]⟩]

/-- The output rows of demoMidnight after the final sort. -/
def midnightRows : List BreathingRateRecord :=
  [⟨"00:00:01", 10⟩, ⟨"23:59:55", 12⟩]

/-- Records sampled every half second; the two accepted peaks sit at clean
indices 2 and 7, whose timestamps are exactly 2.5 seconds apart. -/
def demoFrac : List RawRecord :=
  [⟨0, some [1]⟩, ⟨mkRat 1 2, some [1]⟩, ⟨1, some [8]⟩, ⟨mkRat 3 2, some [1]⟩,
   ⟨2, some [1]⟩, ⟨mkRat 5 2, some [1]⟩, ⟨3, some [1]⟩, ⟨mkRat 7 2, some [9]⟩,
   ⟨4, some [1]⟩, ⟨mkRat 9 2, some [1]⟩, ⟨5, some [1]⟩]

/-- Ten records with local maxima at clean indices 1, 3 and 8; the maxima
at 1 and 3 are two positions apart, so the taller one at index 3 survives
non-maximum suppression and the one at index 1 is suppressed. -/
def demoSuppress : List RawRecord :=
  [⟨100, some [1]⟩, ⟨101, some [8]⟩, ⟨102, some [1]⟩, ⟨103, some [9]⟩,
   ⟨104, some [1]⟩, ⟨105, some [1]⟩, ⟨106, some [1]⟩, ⟨107, some [1]⟩,
   ⟨108, some [10]⟩, ⟨109, some [1]⟩]

/-- An input whose every record has a missing or empty rr list: zero clean
samples. -/
def allMissingInput : List RawRecord :=
  [⟨1749711587, some []⟩, ⟨1749711588, none⟩]

/-! ### Formalizations of the claims that the code falsifies -/

/-- Claim C1 as stated: an input whose pipeline reaches a degenerate state
(zero clean samples, zero peaks, or zero valid intervals) completes
normally - success status - and writes a header-only (empty) output file. -/
def claimDegenerateHeaderOnly : Prop :=
  ∀ records : List RawRecord,
    cleanOf records = [] ∨ peaksOf records = [] ∨ validIntervalsOf records = [] →
    (analyzeBreathingRate (.parsed records)).exitCode = 0 ∧
    (analyzeBreathingRate (.parsed records)).outputFile = some []

/-- A consequence of claim C2 as stated: were each interval the exact
elapsed time (fractional seconds included) between the two peaks of its
pair, every output bpm would be 60 divided by one of the exact consecutive
peak-to-peak elapsed times, rounded to one decimal. -/
def claimExactIntervals : Prop :=
  ∀ (records : List RawRecord) (rows : List BreathingRateRecord),
    pipelineCompute records = .ok rows →
    ∀ r ∈ rows, ∃ e ∈ exactDiffsOf records, r.bpm = round1 (60 / e)

/-- Claim C4 as stated: every run either succeeds and writes the output
file, or prints a diagnostic to the error stream and exits with failure
before writing anything. -/
def claimDiagnosticsOnErrorStream : Prop :=
  ∀ inp : InputSource,
    ((analyzeBreathingRate inp).exitCode = 0 ∧ (analyzeBreathingRate inp).outputFile ≠ none) ∨
    ((analyzeBreathingRate inp).stderrLines ≠ [] ∧ (analyzeBreathingRate inp).exitCode ≠ 0 ∧
      (analyzeBreathingRate inp).outputFile = none)

/-! ### Helper lemmas about list access and boolean-mask selection -/

theorem getD_of_lt {α : Type} (l : List α) (dflt : α) (k : ℕ) (h : k < l.length) :
    l.getD k dflt = l[k] :=
  List.getD_eq_getElem l dflt h

theorem getD_true_lt {l : List Bool} {k : ℕ} (h : l.getD k false = true) : k < l.length := by
  by_contra hk
  rw [List.getD_eq_default _ _ (Nat.le_of_not_lt hk)] at h
  exact Bool.false_ne_true h

theorem range_map_getD {α : Type} (n : ℕ) (f : ℕ → α) (dflt : α) (k : ℕ) :
    ((List.range n).map f).getD k dflt = if k < n then f k else dflt := by
  by_cases h : k < n
  · have hk : k < ((List.range n).map f).length := by simpa using h
    rw [List.getD_eq_getElem _ _ hk, List.getElem_map, List.getElem_range, if_pos h]
  · rw [List.getD_eq_default _ _ (by simpa using Nat.le_of_not_lt h), if_neg h]

theorem replicate_getD_true {n k : ℕ} (h : k < n) :
    (List.replicate n true).getD k false = true := by
  rw [List.getD_eq_getElem _ _ (by simpa using h)]
  simp

theorem map_getD_of_lt {α β : Type} (l : List α) (f : α → β) (dflt : β) (k : ℕ)
    (h : k < l.length) : (l.map f).getD k dflt = f l[k] := by
  rw [getD_of_lt _ _ _ (by simpa using h), List.getElem_map]

theorem maskSelect_nil_left {α : Type} (m : List Bool) : maskSelect ([] : List α) m = [] := rfl

theorem maskSelect_nil_right {α : Type} (xs : List α) : maskSelect xs [] = [] := by
  simp [maskSelect]

theorem maskSelect_cons {α : Type} (a : α) (xs : List α) (mb : Bool) (m : List Bool) :
    maskSelect (a :: xs) (mb :: m) =
      if mb then a :: maskSelect xs m else maskSelect xs m := by
  cases mb <;> simp [maskSelect]

theorem maskSelect_self_filter {α : Type} (p : α → Bool) :
    ∀ xs : List α, maskSelect xs (xs.map p) = xs.filter p := by
  intro xs
  induction xs with
  | nil => rfl
  | cons a xs ih =>
    rw [List.map_cons, maskSelect_cons, List.filter_cons]
    cases h : p a <;> simp [h, ih]

theorem maskSelect_zip_pairs {α β : Type} (pb : β → Bool) :
    ∀ (as : List α) (bs : List β), as.length = bs.length →
      maskSelect (as.zip bs) (bs.map pb) = (as.zip bs).filter (fun pr => pb pr.2) := by
  intro as
  induction as with
  | nil => intro bs h; rfl
  | cons a as ih =>
    intro bs h
    cases bs with
    | nil => simp at h
    | cons b bs =>
      have h2 : as.length = bs.length := by simpa using h
      rw [List.zip_cons_cons, List.map_cons, maskSelect_cons, List.filter_cons]
      cases hb : pb b <;> simp [hb, ih bs h2]

theorem zip_maskSelect {α β : Type} :
    ∀ (as : List α) (bs : List β) (m : List Bool), as.length = bs.length →
      (maskSelect as m).zip (maskSelect bs m) = maskSelect (as.zip bs) m := by
  intro as
  induction as with
  | nil =>
    intro bs m h
    cases bs with
    | nil => rfl
    | cons b bs => simp at h
  | cons a as ih =>
    intro bs m h
    cases bs with
    | nil => simp at h
    | cons b bs =>
      have h2 : as.length = bs.length := by simpa using h
      cases m with
      | nil => simp [maskSelect_nil_right]
      | cons mb m =>
        rw [List.zip_cons_cons, maskSelect_cons, maskSelect_cons, maskSelect_cons]
        cases mb
        · simp only [if_neg Bool.false_ne_true]
          exact ih bs m h2
        · simp [List.zip_cons_cons, ih bs m h2]

/-! ### Lemmas about the non-maximum-suppression pass -/

theorem suppressStep_not_fired (peaks : List ℕ) (d : ℕ) (keep : List Bool) (j : ℕ)
    (hj : keep.getD j false = false) : suppressStep peaks d keep j = keep := by
  unfold suppressStep
  rw [hj]
  rfl

theorem suppressStep_getD_fired (peaks : List ℕ) (d : ℕ) (keep : List Bool) (j k : ℕ)
    (hj : keep.getD j false = true) :
    (suppressStep peaks d keep j).getD k false =
      if k < keep.length then
        (if k ≠ j ∧ Nat.dist (peaks.getD k 0) (peaks.getD j 0) < d then false
         else keep.getD k false)
      else false := by
  unfold suppressStep
  rw [hj]
  exact range_map_getD keep.length _ false k

theorem suppressStep_length (peaks : List ℕ) (d : ℕ) (keep : List Bool) (j : ℕ) :
    (suppressStep peaks d keep j).length = keep.length := by
  unfold suppressStep
  cases h : keep.getD j false
  · rfl
  · simp

theorem suppressStep_getD_true (peaks : List ℕ) (d : ℕ) (keep : List Bool) (j k : ℕ)
    (h : (suppressStep peaks d keep j).getD k false = true) : keep.getD k false = true := by
  cases hj : keep.getD j false
  · rwa [suppressStep_not_fired peaks d keep j hj] at h
  · rw [suppressStep_getD_fired peaks d keep j k hj] at h
    by_cases hk : k < keep.length
    · rw [if_pos hk] at h
      by_cases hc : k ≠ j ∧ Nat.dist (peaks.getD k 0) (peaks.getD j 0) < d
      · rw [if_pos hc] at h
        exact absurd h Bool.false_ne_true
      · rwa [if_neg hc] at h
    · rw [if_neg hk] at h
      exact absurd h Bool.false_ne_true

theorem foldl_suppress_length (peaks : List ℕ) (d : ℕ) :
    ∀ (ord : List ℕ) (keep : List Bool),
      (ord.foldl (suppressStep peaks d) keep).length = keep.length := by
  intro ord
  induction ord with
  | nil => intro keep; rfl
  | cons a ord ih =>
    intro keep
    rw [List.foldl_cons, ih, suppressStep_length]

theorem foldl_suppress_getD_true (peaks : List ℕ) (d : ℕ) :
    ∀ (ord : List ℕ) (keep : List Bool) (k : ℕ),
      (ord.foldl (suppressStep peaks d) keep).getD k false = true →
      keep.getD k false = true := by
  intro ord
  induction ord with
  | nil => intro keep k h; exact h
  | cons a ord ih =>
    intro keep k h
    exact suppressStep_getD_true peaks d keep a k (ih _ k h)

theorem foldl_suppress_sep (peaks : List ℕ) (d : ℕ) :
    ∀ (ord : List ℕ) (keep : List Bool) (i j : ℕ), i ∈ ord → i ≠ j →
      (ord.foldl (suppressStep peaks d) keep).getD i false = true →
      (ord.foldl (suppressStep peaks d) keep).getD j false = true →
      d ≤ Nat.dist (peaks.getD i 0) (peaks.getD j 0) := by
  intro ord
  induction ord with
  | nil => intro keep i j hi; exact absurd hi (List.not_mem_nil i)
  | cons a ord ih =>
    intro keep i j hi hij hfi hfj
    rw [List.foldl_cons] at hfi hfj
    rcases List.mem_cons.mp hi with hia | hia
    · subst hia
      have hk1i : (suppressStep peaks d keep i).getD i false = true :=
        foldl_suppress_getD_true peaks d ord _ i hfi
      have hki : keep.getD i false = true := suppressStep_getD_true peaks d keep i i hk1i
      have hk1j : (suppressStep peaks d keep i).getD j false = true :=
        foldl_suppress_getD_true peaks d ord _ j hfj
      have hjlen : j < keep.length := getD_true_lt (suppressStep_getD_true peaks d keep i j hk1j)
      by_contra hlt
      push_neg at hlt
      have hflip : (suppressStep peaks d keep i).getD j false = false := by
        rw [suppressStep_getD_fired peaks d keep i j hki, if_pos hjlen,
          if_pos ⟨Ne.symm hij, by rw [Nat.dist_comm]; exact hlt⟩]
      rw [hflip] at hk1j
      exact absurd hk1j Bool.false_ne_true
    · exact ih (suppressStep peaks d keep a) i j hia hij hfi hfj

theorem foldl_suppress_stays (peaks : List ℕ) (d : ℕ) (a : ℕ) :
    ∀ (ord : List ℕ) (keep : List Bool),
      keep.getD a false = true →
      (∀ k, k ≠ a → Nat.dist (peaks.getD k 0) (peaks.getD a 0) < d →
        keep.getD k false = false) →
      (ord.foldl (suppressStep peaks d) keep).getD a false = true ∧
      (∀ k, k ≠ a → Nat.dist (peaks.getD k 0) (peaks.getD a 0) < d →
        (ord.foldl (suppressStep peaks d) keep).getD k false = false) := by
  intro ord
  induction ord with
  | nil => intro keep ha hnb; exact ⟨ha, hnb⟩
  | cons b ord ih =>
    intro keep ha hnb
    rw [List.foldl_cons]
    cases hb : keep.getD b false
    · rw [suppressStep_not_fired peaks d keep b hb]
      exact ih keep ha hnb
    · have halen : a < keep.length := getD_true_lt ha
      by_cases hba : b = a
      · subst hba
        apply ih
        · rw [suppressStep_getD_fired peaks d keep b b hb, if_pos halen,
            if_neg (fun hc => hc.1 rfl)]
          exact ha
        · intro k hk hdist
          rw [suppressStep_getD_fired peaks d keep b k hb]
          by_cases hklen : k < keep.length
          · rw [if_pos hklen, if_pos ⟨hk, hdist⟩]
          · rw [if_neg hklen]
      · have hdb : ¬ Nat.dist (peaks.getD b 0) (peaks.getD a 0) < d := by
          intro hlt
          rw [hnb b hba hlt] at hb
          exact Bool.false_ne_true hb
        apply ih
        · rw [suppressStep_getD_fired peaks d keep b a hb, if_pos halen,
            if_neg (fun hc => hdb (by rw [Nat.dist_comm]; exact hc.2))]
          exact ha
        · intro k hk hdist
          rw [suppressStep_getD_fired peaks d keep b k hb]
          by_cases hklen : k < keep.length
          · rw [if_pos hklen]
            by_cases hc : k ≠ b ∧ Nat.dist (peaks.getD k 0) (peaks.getD b 0) < d
            · rw [if_pos hc]
            · rw [if_neg hc]
              exact hnb k hk hdist
          · rw [if_neg hklen]

theorem foldl_suppress_flip (peaks : List ℕ) (d : ℕ) (heights : List ℚ) :
    ∀ (ord : List ℕ) (keep : List Bool) (j : ℕ),
      List.Pairwise (fun a b => heights.getD b 0 ≤ heights.getD a 0) ord →
      j ∈ ord →
      keep.getD j false = true →
      (ord.foldl (suppressStep peaks d) keep).getD j false = false →
      ∃ a, a ≠ j ∧ Nat.dist (peaks.getD a 0) (peaks.getD j 0) < d ∧
        (ord.foldl (suppressStep peaks d) keep).getD a false = true ∧
        heights.getD j 0 ≤ heights.getD a 0 := by
  intro ord
  induction ord with
  | nil => intro keep j _ hj; exact absurd hj (List.not_mem_nil j)
  | cons b ord ih =>
    intro keep j hpw hj hkj hfin
    rw [List.foldl_cons] at hfin
    obtain ⟨hbdom, hpw2⟩ := List.pairwise_cons.mp hpw
    have hjlen : j < keep.length := getD_true_lt hkj
    cases h1 : (suppressStep peaks d keep b).getD j false
    · -- the head step flipped j, so it fired and j is inside its window
      have hb : keep.getD b false = true := by
        cases hb : keep.getD b false
        · rw [suppressStep_not_fired peaks d keep b hb, hkj] at h1
          exact absurd h1.symm Bool.false_ne_true
        · rfl
      have hc : j ≠ b ∧ Nat.dist (peaks.getD j 0) (peaks.getD b 0) < d := by
        by_contra hc
        rw [suppressStep_getD_fired peaks d keep b j hb, if_pos hjlen, if_neg hc, hkj] at h1
        exact absurd h1.symm Bool.false_ne_true
      have hstays := foldl_suppress_stays peaks d b ord (suppressStep peaks d keep b)
        (by
          rw [suppressStep_getD_fired peaks d keep b b hb, if_pos (getD_true_lt hb),
            if_neg (fun hcc => hcc.1 rfl)]
          exact hb)
        (by
          intro k hk hdist
          rw [suppressStep_getD_fired peaks d keep b k hb]
          by_cases hklen : k < keep.length
          · rw [if_pos hklen, if_pos ⟨hk, hdist⟩]
          · rw [if_neg hklen])
      refine ⟨b, Ne.symm hc.1, by rw [Nat.dist_comm]; exact hc.2, hstays.1, ?_⟩
      have hjord : j ∈ ord := by
        rcases List.mem_cons.mp hj with h | h
        · exact absurd h hc.1
        · exact h
      exact hbdom j hjord
    · -- j survives the head step; recurse into the tail
      have hjord : j ∈ ord := by
        rcases List.mem_cons.mp hj with h | h
        · -- j = b would fire and then stay kept, contradicting hfin
          subst h
          have hstays := foldl_suppress_stays peaks d j ord (suppressStep peaks d keep j)
            (by
              rw [suppressStep_getD_fired peaks d keep j j hkj, if_pos hjlen,
                if_neg (fun hcc => hcc.1 rfl)]
              exact hkj)
            (by
              intro k hk hdist
              rw [suppressStep_getD_fired peaks d keep j k hkj]
              by_cases hklen : k < keep.length
              · rw [if_pos hklen, if_pos ⟨hk, hdist⟩]
              · rw [if_neg hklen])
          rw [hstays.1] at hfin
          exact absurd hfin.symm Bool.false_ne_true
        · exact h
      exact ih (suppressStep peaks d keep b) j hpw2 hjord h1 hfin

/-! ### find_peaks level lemmas -/

theorem peaksOf_eq (records : List RawRecord) :
    peaksOf records =
      selectByPeakDistance (candidatePeaks (signalOf records))
        ((candidatePeaks (signalOf records)).map (fun u => (signalOf records).getD u 0)) 5 :=
  rfl

theorem distanceKeep_length (peaks : List ℕ) (heights : List ℚ) (d : ℕ) :
    (distanceKeep peaks heights d).length = peaks.length := by
  unfold distanceKeep
  rw [foldl_suppress_length, List.length_replicate]

theorem selectByPeakDistance_mem_elim (peaks : List ℕ) (heights : List ℚ) (d : ℕ) (p : ℕ)
    (hp : p ∈ selectByPeakDistance peaks heights d) :
    ∃ k, k < peaks.length ∧ (distanceKeep peaks heights d).getD k false = true ∧
      peaks.getD k 0 = p := by
  simp only [selectByPeakDistance] at hp
  obtain ⟨k, hk, hkp⟩ := List.mem_map.mp hp
  have h2 := List.mem_filter.mp hk
  exact ⟨k, List.mem_range.mp h2.1, h2.2, hkp⟩

theorem selectByPeakDistance_mem_intro (peaks : List ℕ) (heights : List ℚ) (d k : ℕ)
    (hk : k < peaks.length) (hkeep : (distanceKeep peaks heights d).getD k false = true) :
    peaks.getD k 0 ∈ selectByPeakDistance peaks heights d := by
  simp only [selectByPeakDistance]
  exact List.mem_map.mpr ⟨k, List.mem_filter.mpr ⟨List.mem_range.mpr hk, hkeep⟩, rfl⟩

theorem selectByPeakDistance_sep (peaks : List ℕ) (heights : List ℚ) (d p q : ℕ)
    (hp : p ∈ selectByPeakDistance peaks heights d)
    (hq : q ∈ selectByPeakDistance peaks heights d) (hpq : p ≠ q) :
    d ≤ Nat.dist p q := by
  obtain ⟨kp, hkp, hkeepp, hvp⟩ := selectByPeakDistance_mem_elim peaks heights d p hp
  obtain ⟨kq, hkq, hkeepq, hvq⟩ := selectByPeakDistance_mem_elim peaks heights d q hq
  have hne : kp ≠ kq := fun h => hpq (by rw [← hvp, ← hvq, h])
  have hkpord : kp ∈ priorityOrder heights peaks.length := by
    unfold priorityOrder
    exact (List.mem_insertionSort _).mpr (List.mem_range.mpr hkp)
  unfold distanceKeep at hkeepp hkeepq
  have := foldl_suppress_sep peaks d (priorityOrder heights peaks.length)
    (List.replicate peaks.length true) kp kq hkpord hne hkeepp hkeepq
  rwa [hvp, hvq] at this

theorem selectByPeakDistance_dominator (peaks : List ℕ) (heights : List ℚ) (d : ℕ) (jc : ℕ)
    (hjc : jc < peaks.length)
    (hflip : (distanceKeep peaks heights d).getD jc false = false) :
    ∃ k, k < peaks.length ∧ (distanceKeep peaks heights d).getD k false = true ∧
      Nat.dist (peaks.getD k 0) (peaks.getD jc 0) < d ∧
      heights.getD jc 0 ≤ heights.getD k 0 := by
  haveI instTot : IsTotal ℕ (fun a b => heights.getD b 0 ≤ heights.getD a 0) :=
    ⟨fun a b => le_total _ _⟩
  haveI instTr : IsTrans ℕ (fun a b => heights.getD b 0 ≤ heights.getD a 0) :=
    ⟨fun a b c h1 h2 => le_trans h2 h1⟩
  have hpw : List.Pairwise (fun a b => heights.getD b 0 ≤ heights.getD a 0)
      (priorityOrder heights peaks.length) := by
    unfold priorityOrder
    exact List.sorted_insertionSort _ _
  have hjord : jc ∈ priorityOrder heights peaks.length := by
    unfold priorityOrder
    exact (List.mem_insertionSort _).mpr (List.mem_range.mpr hjc)
  unfold distanceKeep at hflip ⊢
  obtain ⟨a, _, hdist, hfa, hha⟩ := foldl_suppress_flip peaks d heights
    (priorityOrder heights peaks.length) (List.replicate peaks.length true) jc
    hpw hjord (replicate_getD_true hjc) hflip
  have halen : a < peaks.length := by
    have := getD_true_lt hfa
    rwa [foldl_suppress_length, List.length_replicate] at this
  exact ⟨a, halen, hfa, hdist, hha⟩

/-- C6: no accepted peak has an rr-mean value below the 60th percentile of
the whole clean rr-mean distribution; the percentile is the global one,
computed once over the entire clean session. -/
theorem acceptedPeakAboveThreshold (records : List RawRecord) (p : ℕ)
    (hp : p ∈ peaksOf records) :
    percentile60 (signalOf records) ≤ (signalOf records).getD p 0 := by
  rw [peaksOf_eq] at hp
  obtain ⟨k, hk, _, hvp⟩ := selectByPeakDistance_mem_elim _ _ _ _ hp
  have hmem : p ∈ candidatePeaks (signalOf records) := by
    rw [← hvp, getD_of_lt _ _ _ hk]
    exact List.getElem_mem hk
  unfold candidatePeaks at hmem
  exact of_decide_eq_true (List.mem_filter.mp hmem).2

/-- C6 witness: clean index 3 of demoSuppress is an accepted peak and its
value clears the global 60th percentile. -/
theorem acceptedPeakAboveThreshold_witness :
    (3 : ℕ) ∈ peaksOf demoSuppress ∧
      percentile60 (signalOf demoSuppress) ≤ (signalOf demoSuppress).getD 3 0 :=
  ⟨by decide, acceptedPeakAboveThreshold demoSuppress 3 (by decide)⟩

/-- C7: any two distinct accepted peaks are at least 5 clean-sample
positions apart (for every pair, in every input), and every
height-qualified candidate that was suppressed lies within the 5-position
window of some accepted peak at least as tall - the
non-maximum-suppression policy. -/
theorem peakSeparationAndSuppression (records : List RawRecord) :
    (∀ p q : ℕ, p ∈ peaksOf records → q ∈ peaksOf records → p ≠ q →
      5 ≤ Nat.dist p q) ∧
    (∀ c : ℕ, c ∈ candidatePeaks (signalOf records) → c ∉ peaksOf records →
      ∃ a ∈ peaksOf records, Nat.dist a c < 5 ∧
        (signalOf records).getD c 0 ≤ (signalOf records).getD a 0) := by
  constructor
  · intro p q hp hq hpq
    rw [peaksOf_eq] at hp hq
    exact selectByPeakDistance_sep _ _ _ _ _ hp hq hpq
  · intro c hc hcna
    obtain ⟨jc, hjc, hcel⟩ := List.mem_iff_getElem.mp hc
    have hgv : (candidatePeaks (signalOf records)).getD jc 0 = c := by
      rw [getD_of_lt _ _ _ hjc, hcel]
    have hflip : (distanceKeep (candidatePeaks (signalOf records))
        ((candidatePeaks (signalOf records)).map (fun u => (signalOf records).getD u 0)) 5).getD
          jc false = false := by
      cases hfl : (distanceKeep (candidatePeaks (signalOf records))
          ((candidatePeaks (signalOf records)).map (fun u => (signalOf records).getD u 0)) 5).getD
            jc false
      · rfl
      · exfalso
        apply hcna
        rw [peaksOf_eq, ← hgv]
        exact selectByPeakDistance_mem_intro _ _ _ _ hjc hfl
    obtain ⟨k, hklen, hkeep, hdist, hh⟩ :=
      selectByPeakDistance_dominator (candidatePeaks (signalOf records))
        ((candidatePeaks (signalOf records)).map (fun u => (signalOf records).getD u 0)) 5 jc
        hjc hflip
    refine ⟨(candidatePeaks (signalOf records)).getD k 0, ?_, ?_, ?_⟩
    · rw [peaksOf_eq]
      exact selectByPeakDistance_mem_intro _ _ _ _ hklen hkeep
    · rwa [hgv] at hdist
    · have h1 : ((candidatePeaks (signalOf records)).map
          (fun u => (signalOf records).getD u 0)).getD k 0 =
          (signalOf records).getD ((candidatePeaks (signalOf records)).getD k 0) 0 := by
        rw [map_getD_of_lt _ _ _ _ hklen, getD_of_lt _ _ _ hklen]
      have h2 : ((candidatePeaks (signalOf records)).map
          (fun u => (signalOf records).getD u 0)).getD jc 0 =
          (signalOf records).getD ((candidatePeaks (signalOf records)).getD jc 0) 0 := by
        rw [map_getD_of_lt _ _ _ _ hjc, getD_of_lt _ _ _ hjc]
      rw [h1, h2, hgv] at hh
      exact hh

/-- C7 witness: in demoSuppress, the accepted peaks 3 and 8 are 5 positions
apart, and the suppressed candidate at index 1 has an accepted peak within
5 positions that is at least as tall; both conjuncts of the theorem are
applied at this concrete input. -/
theorem peakSeparationAndSuppression_witness :
    (3 : ℕ) ∈ peaksOf demoSuppress ∧ (8 : ℕ) ∈ peaksOf demoSuppress ∧ (3 : ℕ) ≠ 8 ∧
      (1 : ℕ) ∈ candidatePeaks (signalOf demoSuppress) ∧ (1 : ℕ) ∉ peaksOf demoSuppress ∧
      5 ≤ Nat.dist 3 8 ∧
      ∃ a ∈ peaksOf demoSuppress, Nat.dist a 1 < 5 ∧
        (signalOf demoSuppress).getD 1 0 ≤ (signalOf demoSuppress).getD a 0 :=
  ⟨by decide, by decide, by decide, by decide, by decide,
    (peakSeparationAndSuppression demoSuppress).1 3 8 (by decide) (by decide) (by decide),
    (peakSeparationAndSuppression demoSuppress).2 1 (by decide) (by decide)⟩

/-! ### Structure of the output rows -/

theorem peakTsOf_length (records : List RawRecord) :
    (peakTsOf records).length = (peaksOf records).length := by
  unfold peakTsOf
  rw [List.length_map]

theorem diffsOf_length (records : List RawRecord) :
    (diffsOf records).length = (peaksOf records).length - 1 := by
  unfold diffsOf
  rw [List.length_zipWith, List.length_tail, peakTsOf_length]
  omega

theorem diffsOf_getElem (records : List RawRecord) (i : ℕ) (h : i < (diffsOf records).length) :
    (diffsOf records)[i] =
      truncSecOfNs ((peakTsOf records).getD (i + 1) 0 - (peakTsOf records).getD i 0) := by
  have hlen : i + 1 < (peakTsOf records).length := by
    have := diffsOf_length records
    have h2 := peakTsOf_length records
    omega
  simp only [diffsOf]
  rw [List.getElem_zipWith, List.getElem_tail]
  rw [getD_of_lt _ _ _ hlen, getD_of_lt _ _ _ (by omega)]

theorem mem_sortRows (rows : List BreathingRateRecord) (r : BreathingRateRecord) :
    r ∈ sortRows rows ↔ r ∈ rows := by
  unfold sortRows
  exact List.mem_insertionSort _

theorem pipelineCompute_ok (records : List RawRecord) (rows : List BreathingRateRecord)
    (h : pipelineCompute records = .ok rows) : rows = sortRows (rowsOf records) := by
  unfold pipelineCompute at h
  split_ifs at h
  exact (Except.ok.injEq _ _ ).mp h |>.symm

/-- Every pre-sort output row comes from one surviving consecutive-peak
pair: its time string is the display string of the later peak of the pair,
and its bpm value is 60 over the truncated whole-second interval of that
same pair, rounded to one decimal. -/
theorem rowsOf_structure (records : List RawRecord) (r : BreathingRateRecord)
    (hr : r ∈ rowsOf records) :
    ∃ i, i + 1 < (peaksOf records).length ∧
      (diffsOf records).getD i 0 =
        truncSecOfNs ((peakTsOf records).getD (i + 1) 0 - (peakTsOf records).getD i 0) ∧
      2 ≤ (diffsOf records).getD i 0 ∧ (diffsOf records).getD i 0 ≤ 10 ∧
      r.time = timeAtIndex records ((peaksOf records).getD (i + 1) 0) ∧
      r.bpm = round1 (60 / (((diffsOf records).getD i 0 : ℤ) : ℚ)) := by
  have hlen1 : (List.range' 1 ((peaksOf records).length - 1)).length = (diffsOf records).length := by
    rw [List.length_range', diffsOf_length]
  simp only [rowsOf, validPeakIndicesOf, validIntervalsOf, maskOf] at hr
  rw [List.zip_map, zip_maskSelect _ _ _ hlen1,
    maskSelect_zip_pairs _ _ _ hlen1, List.map_map] at hr
  obtain ⟨pr, hpr, hprr⟩ := List.mem_map.mp hr
  have hfil := List.mem_filter.mp hpr
  obtain ⟨i, hi, hiel⟩ := List.mem_iff_getElem.mp hfil.1
  have hizip : i < (diffsOf records).length := by
    have := hi
    rwa [List.length_zip, hlen1, Nat.min_self] at this
  have hprfst : pr.1 = i + 1 := by
    rw [← hiel, List.getElem_zip]
    simp [List.getElem_range']
    omega
  have hprsnd : pr.2 = (diffsOf records).getD i 0 := by
    rw [← hiel, List.getElem_zip, getD_of_lt _ _ _ hizip]
  have hband := of_decide_eq_true hfil.2
  rw [hprsnd] at hband
  refine ⟨i, ?_, ?_, hband.1, hband.2, ?_, ?_⟩
  · have := diffsOf_length records
    omega
  · rw [getD_of_lt _ _ _ hizip]
    exact diffsOf_getElem records i hizip
  · rw [← hprr]
    simp only [Function.comp, Prod.map_fst]
    rw [hprfst]
  · rw [← hprr]
    simp only [Function.comp, Prod.map_snd]
    rw [hprsnd]

theorem output_row_structure (records : List RawRecord) (rows : List BreathingRateRecord)
    (r : BreathingRateRecord) (hok : pipelineCompute records = .ok rows) (hr : r ∈ rows) :
    ∃ i, i + 1 < (peaksOf records).length ∧
      (diffsOf records).getD i 0 =
        truncSecOfNs ((peakTsOf records).getD (i + 1) 0 - (peakTsOf records).getD i 0) ∧
      2 ≤ (diffsOf records).getD i 0 ∧ (diffsOf records).getD i 0 ≤ 10 ∧
      r.time = timeAtIndex records ((peaksOf records).getD (i + 1) 0) ∧
      r.bpm = round1 (60 / (((diffsOf records).getD i 0 : ℤ) : ℚ)) := by
  rw [pipelineCompute_ok records rows hok, mem_sortRows] at hr
  exact rowsOf_structure records r hr

theorem output_bpm_enum (records : List RawRecord) (rows : List BreathingRateRecord)
    (r : BreathingRateRecord) (hok : pipelineCompute records = .ok rows) (hr : r ∈ rows) :
    ∃ k : ℤ, 2 ≤ k ∧ k ≤ 10 ∧ r.bpm = round1 (60 / (k : ℚ)) := by
  obtain ⟨i, _, _, h2, h10, _, hb⟩ := output_row_structure records rows r hok hr
  exact ⟨(diffsOf records).getD i 0, h2, h10, hb⟩

theorem output_bpm_cases (records : List RawRecord) (rows : List BreathingRateRecord)
    (r : BreathingRateRecord) (hok : pipelineCompute records = .ok rows) (hr : r ∈ rows) :
    r.bpm = 30 ∨ r.bpm = 20 ∨ r.bpm = 15 ∨ r.bpm = 12 ∨ r.bpm = 10 ∨
      r.bpm = 43 / 5 ∨ r.bpm = 15 / 2 ∨ r.bpm = 67 / 10 ∨ r.bpm = 6 := by
  obtain ⟨k, h2, h10, hbpm⟩ := output_bpm_enum records rows r hok hr
  have hk : k = 2 ∨ k = 3 ∨ k = 4 ∨ k = 5 ∨ k = 6 ∨ k = 7 ∨ k = 8 ∨ k = 9 ∨ k = 10 := by
    omega
  rcases hk with h | h | h | h | h | h | h | h | h <;> rw [h] at hbpm <;> rw [hbpm] <;> decide

/-- C9: because inter-peak elapsed times are truncated to whole seconds
before the band filter and the rate conversion, every output bpm equals
round(60 / k, 1) for some integer k between 2 and 10, hence is one of
30.0, 20.0, 15.0, 12.0, 10.0, 8.6, 7.5, 6.7, 6.0. -/
theorem outputBpmQuantized (records : List RawRecord) (rows : List BreathingRateRecord)
    (r : BreathingRateRecord) (hok : pipelineCompute records = .ok rows) (hr : r ∈ rows) :
    (∃ k : ℤ, 2 ≤ k ∧ k ≤ 10 ∧ r.bpm = round1 (60 / (k : ℚ))) ∧
      (r.bpm = 30 ∨ r.bpm = 20 ∨ r.bpm = 15 ∨ r.bpm = 12 ∨ r.bpm = 10 ∨
        r.bpm = 43 / 5 ∨ r.bpm = 15 / 2 ∨ r.bpm = 67 / 10 ∨ r.bpm = 6) :=
  ⟨output_bpm_enum records rows r hok hr, output_bpm_cases records rows r hok hr⟩

/-- C9 witness: the row (00:00:01, 10.0) of demoMidnight instantiates the
quantization property. -/
theorem outputBpmQuantized_witness :
    pipelineCompute demoMidnight = .ok midnightRows ∧
      (⟨"00:00:01", 10⟩ : BreathingRateRecord) ∈ midnightRows ∧
      ((∃ k : ℤ, 2 ≤ k ∧ k ≤ 10 ∧
          (⟨"00:00:01", 10⟩ : BreathingRateRecord).bpm = round1 (60 / (k : ℚ))) ∧
        ((⟨"00:00:01", 10⟩ : BreathingRateRecord).bpm = 30 ∨
          (⟨"00:00:01", 10⟩ : BreathingRateRecord).bpm = 20 ∨
          (⟨"00:00:01", 10⟩ : BreathingRateRecord).bpm = 15 ∨
          (⟨"00:00:01", 10⟩ : BreathingRateRecord).bpm = 12 ∨
          (⟨"00:00:01", 10⟩ : BreathingRateRecord).bpm = 10 ∨
          (⟨"00:00:01", 10⟩ : BreathingRateRecord).bpm = 43 / 5 ∨
          (⟨"00:00:01", 10⟩ : BreathingRateRecord).bpm = 15 / 2 ∨
          (⟨"00:00:01", 10⟩ : BreathingRateRecord).bpm = 67 / 10 ∨
          (⟨"00:00:01", 10⟩ : BreathingRateRecord).bpm = 6)) :=
  ⟨by decide, by decide,
    outputBpmQuantized demoMidnight midnightRows ⟨"00:00:01", 10⟩ (by decide) (by decide)⟩

/-- C8: every output record is timestamped with the display string of the
later peak of its consecutive-peak pair - index i + 1, never index 0, so a
lone leading peak never appears in the output - and its bpm comes from the
interval that ends at that same peak. -/
theorem rowTimestampFromLaterPeak (records : List RawRecord) (rows : List BreathingRateRecord)
    (r : BreathingRateRecord) (hok : pipelineCompute records = .ok rows) (hr : r ∈ rows) :
    ∃ i, i + 1 < (peaksOf records).length ∧
      2 ≤ (diffsOf records).getD i 0 ∧ (diffsOf records).getD i 0 ≤ 10 ∧
      r.time = timeAtIndex records ((peaksOf records).getD (i + 1) 0) ∧
      r.bpm = round1 (60 / (((diffsOf records).getD i 0 : ℤ) : ℚ)) := by
  obtain ⟨i, hi, _, h2, h10, ht, hb⟩ := output_row_structure records rows r hok hr
  exact ⟨i, hi, h2, h10, ht, hb⟩

/-- C8 witness: the row (00:00:01, 10.0) of demoMidnight carries the display
string of the later peak of its pair. -/
theorem rowTimestampFromLaterPeak_witness :
    pipelineCompute demoMidnight = .ok midnightRows ∧
      (⟨"00:00:01", 10⟩ : BreathingRateRecord) ∈ midnightRows ∧
      (∃ i, i + 1 < (peaksOf demoMidnight).length ∧
        2 ≤ (diffsOf demoMidnight).getD i 0 ∧ (diffsOf demoMidnight).getD i 0 ≤ 10 ∧
        (⟨"00:00:01", 10⟩ : BreathingRateRecord).time =
          timeAtIndex demoMidnight ((peaksOf demoMidnight).getD (i + 1) 0) ∧
        (⟨"00:00:01", 10⟩ : BreathingRateRecord).bpm =
          round1 (60 / (((diffsOf demoMidnight).getD i 0 : ℤ) : ℚ))) :=
  ⟨by decide, by decide,
    rowTimestampFromLaterPeak demoMidnight midnightRows ⟨"00:00:01", 10⟩ (by decide) (by decide)⟩

/-- C2 amended: the interval used for filtering and rate conversion is the
true elapsed time between the two peaks' absolute timestamps truncated to a
whole number of seconds (absolute-time arithmetic, not the display string),
and each output bpm is 60 over that whole-second interval, rounded to one
decimal. -/
theorem intervalTruncatedWholeSeconds (records : List RawRecord)
    (rows : List BreathingRateRecord) (r : BreathingRateRecord)
    (hok : pipelineCompute records = .ok rows) (hr : r ∈ rows) :
    ∃ i k, i + 1 < (peaksOf records).length ∧
      k = truncSecOfNs ((peakTsOf records).getD (i + 1) 0 - (peakTsOf records).getD i 0) ∧
      2 ≤ k ∧ k ≤ 10 ∧ r.bpm = round1 (60 / (k : ℚ)) := by
  obtain ⟨i, hi, hdeq, h2, h10, _, hb⟩ := output_row_structure records rows r hok hr
  exact ⟨i, (diffsOf records).getD i 0, hi, hdeq, h2, h10, hb⟩

/-- C2 amended witness: the row (00:00:01, 10.0) of demoMidnight. -/
theorem intervalTruncatedWholeSeconds_witness :
    pipelineCompute demoMidnight = .ok midnightRows ∧
      (⟨"00:00:01", 10⟩ : BreathingRateRecord) ∈ midnightRows ∧
      (∃ i k, i + 1 < (peaksOf demoMidnight).length ∧
        k = truncSecOfNs ((peakTsOf demoMidnight).getD (i + 1) 0 -
          (peakTsOf demoMidnight).getD i 0) ∧
        2 ≤ k ∧ k ≤ 10 ∧
        (⟨"00:00:01", 10⟩ : BreathingRateRecord).bpm = round1 (60 / (k : ℚ))) :=
  ⟨by decide, by decide,
    intervalTruncatedWholeSeconds demoMidnight midnightRows ⟨"00:00:01", 10⟩
      (by decide) (by decide)⟩

/-- C2 counterexample: on demoFrac the only pair of accepted peaks is
exactly 2.5 seconds apart; 60 / 2.5 rounded to one decimal is 24.0, but the
pipeline outputs 30.0, because it truncates 2.5 to 2 whole seconds before
converting.  So no output bpm derives from the exact (fractional-second)
elapsed time, refuting claim C2 as stated. -/
theorem exactIntervalClaimFalse : ¬ claimExactIntervals := by
  intro h
  obtain ⟨e, he, hbpm⟩ :=
    h demoFrac [⟨"16:00:03", 30⟩] (by decide) ⟨"16:00:03", 30⟩ (by decide)
  have he2 : e = 5 / 2 := by
    have hx : exactDiffsOf demoFrac = [5 / 2] := by decide
    rw [hx] at he
    exact List.mem_singleton.mp he
  rw [he2] at hbpm
  exact absurd hbpm (by decide)

/-- C5: for every output row the implied cycle length 60 / bpm lies in the
inclusive band [2, 10]; the computed intervals kept are exactly those in
the band (everything outside is dropped, nothing is clamped), and the
boundary intervals 2 and 10 are retained. -/
theorem bandInvariant (records : List RawRecord) (rows : List BreathingRateRecord)
    (r : BreathingRateRecord) (hok : pipelineCompute records = .ok rows) (hr : r ∈ rows) :
    (2 ≤ 60 / r.bpm ∧ 60 / r.bpm ≤ 10) ∧
      validIntervalsOf records = (diffsOf records).filter (fun d => decide (2 ≤ d ∧ d ≤ 10)) ∧
      ((2 : ℤ) ∈ diffsOf records → (2 : ℤ) ∈ validIntervalsOf records) ∧
      ((10 : ℤ) ∈ diffsOf records → (10 : ℤ) ∈ validIntervalsOf records) := by
  have hfil : validIntervalsOf records =
      (diffsOf records).filter (fun d => decide (2 ≤ d ∧ d ≤ 10)) := by
    unfold validIntervalsOf maskOf
    exact maskSelect_self_filter _ _
  refine ⟨?_, hfil, ?_, ?_⟩
  · rcases output_bpm_cases records rows r hok hr with h | h | h | h | h | h | h | h | h <;>
      rw [h] <;> exact ⟨by decide, by decide⟩
  · intro h2
    rw [hfil]
    exact List.mem_filter.mpr ⟨h2, by decide⟩
  · intro h10
    rw [hfil]
    exact List.mem_filter.mpr ⟨h10, by decide⟩

/-- C5 witness: the row (23:59:55, 12.0) of demoMidnight instantiates the
band invariant. -/
theorem bandInvariant_witness :
    pipelineCompute demoMidnight = .ok midnightRows ∧
      (⟨"23:59:55", 12⟩ : BreathingRateRecord) ∈ midnightRows ∧
      ((2 ≤ 60 / (⟨"23:59:55", 12⟩ : BreathingRateRecord).bpm ∧
          60 / (⟨"23:59:55", 12⟩ : BreathingRateRecord).bpm ≤ 10) ∧
        validIntervalsOf demoMidnight =
          (diffsOf demoMidnight).filter (fun d => decide (2 ≤ d ∧ d ≤ 10)) ∧
        ((2 : ℤ) ∈ diffsOf demoMidnight → (2 : ℤ) ∈ validIntervalsOf demoMidnight) ∧
        ((10 : ℤ) ∈ diffsOf demoMidnight → (10 : ℤ) ∈ validIntervalsOf demoMidnight)) :=
  ⟨by decide, by decide,
    bandInvariant demoMidnight midnightRows ⟨"23:59:55", 12⟩ (by decide) (by decide)⟩

/-! ### Degenerate inputs and process behavior -/

theorem validIntervalsOf_of_peaks_nil (records : List RawRecord)
    (hp : peaksOf records = []) : validIntervalsOf records = [] := by
  have hd : diffsOf records = [] := by
    unfold diffsOf peakTsOf
    rw [hp]
    rfl
  unfold validIntervalsOf maskOf
  rw [hd]
  rfl

theorem pipelineCompute_degenerate (records : List RawRecord)
    (h : cleanOf records = [] ∨ peaksOf records = [] ∨ validIntervalsOf records = []) :
    ∃ msg, pipelineCompute records = .error msg := by
  have hv : records.length = 0 ∨ (cleanOf records).length = 0 ∨
      (validIntervalsOf records).length = 0 := by
    rcases h with hc | hp | hvi
    · exact Or.inr (Or.inl (by rw [hc]; rfl))
    · exact Or.inr (Or.inr (by rw [validIntervalsOf_of_peaks_nil records hp]; rfl))
    · exact Or.inr (Or.inr (by rw [hvi]; rfl))
  unfold pipelineCompute
  split_ifs with h1 h2 h3
  · exact ⟨_, rfl⟩
  · exact ⟨_, rfl⟩
  · exact ⟨_, rfl⟩
  · exfalso
    rcases hv with hv | hv | hv
    · exact h1 hv
    · exact h2 hv
    · exact h3 hv

/-- C1 amended: an input whose pipeline reaches a degenerate state (zero
clean samples, zero detected peaks, or zero valid intervals) does not
complete normally: a numpy reduction over an empty array raises, the
except handler prints the diagnostic to standard output, the process exits
with failure status, and no output file is written. -/
theorem degenerateInputFailsWithoutOutput (records : List RawRecord)
    (h : cleanOf records = [] ∨ peaksOf records = [] ∨ validIntervalsOf records = []) :
    analyzeBreathingRate (.parsed records) = ⟨1, none, [], true⟩ := by
  obtain ⟨msg, hm⟩ := pipelineCompute_degenerate records h
  simp only [analyzeBreathingRate]
  rw [hm]

/-- C1 witness: the all-missing input has zero clean samples and the run
exits with failure status, writing nothing. -/
theorem degenerateInputFailsWithoutOutput_witness :
    (cleanOf allMissingInput = [] ∨ peaksOf allMissingInput = [] ∨
      validIntervalsOf allMissingInput = []) ∧
      analyzeBreathingRate (.parsed allMissingInput) = ⟨1, none, [], true⟩ :=
  ⟨Or.inl (by decide),
    degenerateInputFailsWithoutOutput allMissingInput (Or.inl (by decide))⟩

/-- C1 counterexample: claim C1 as stated - degenerate inputs complete
normally with success status and a header-only output file - is false: the
all-missing input makes the run exit with status 1 and write no file. -/
theorem degenerateHeaderOnlyClaimFalse : ¬ claimDegenerateHeaderOnly := by
  intro h
  obtain ⟨h0, _⟩ := h allMissingInput (Or.inl (by decide))
  exact absurd h0 (by decide)

/-- C4 amended: every run either completes the whole pipeline and writes
exactly one output file before finishing with success status, or - on a
missing input path, a load/parse failure, or a degenerate computation that
raises - prints a diagnostic to standard output (not the error stream:
nothing is ever written to the error stream) and exits with failure status
with no output file written. -/
theorem runWritesOutputOrFailsToStdout (inp : InputSource) :
    (analyzeBreathingRate inp).stderrLines = [] ∧
      (((analyzeBreathingRate inp).exitCode = 0 ∧
          (analyzeBreathingRate inp).stdoutDiagnostic = false ∧
          ∃ rows, (analyzeBreathingRate inp).outputFile = some rows) ∨
        ((analyzeBreathingRate inp).exitCode = 1 ∧
          (analyzeBreathingRate inp).stdoutDiagnostic = true ∧
          (analyzeBreathingRate inp).outputFile = none)) := by
  cases inp with
  | missing => exact ⟨rfl, Or.inr ⟨rfl, rfl, rfl⟩⟩
  | unparsable => exact ⟨rfl, Or.inr ⟨rfl, rfl, rfl⟩⟩
  | parsed records =>
    simp only [analyzeBreathingRate]
    cases hp : pipelineCompute records with
    | error msg => exact ⟨rfl, Or.inr ⟨rfl, rfl, rfl⟩⟩
    | ok rows => exact ⟨rfl, Or.inl ⟨rfl, rfl, rows, rfl⟩⟩

/-- C4 counterexample: claim C4 as stated requires the failure diagnostic
to go to the error stream; on a missing input the process exits with
failure but its error stream stays empty (the message goes to standard
output), so the claim is false. -/
theorem errorStreamClaimFalse : ¬ claimDiagnosticsOnErrorStream := by
  intro h
  rcases h .missing with ⟨h0, _⟩ | ⟨hs, _, _⟩
  · exact absurd h0 (by decide)
  · exact hs (by decide)

/-- C10: the final sort orders rows by the formatted HH:MM:SS Pacific
display string, not by absolute time.  On demoMidnight, which spans local
midnight, the rows are produced chronologically as 23:59:55 then 00:00:01,
but the sorted output puts 00:00:01 first although its peak's absolute
timestamp is the later one - string order, not chronological order. -/
theorem sortUsesDisplayStringNotAbsoluteTime :
    rowsOf demoMidnight = [⟨"23:59:55", 12⟩, ⟨"00:00:01", 10⟩] ∧
      sortRows (rowsOf demoMidnight) = [⟨"00:00:01", 10⟩, ⟨"23:59:55", 12⟩] ∧
      pipelineCompute demoMidnight = .ok [⟨"00:00:01", 10⟩, ⟨"23:59:55", 12⟩] ∧
      ((cleanOf demoMidnight).getD 8 default).timeStr = "23:59:55" ∧
      ((cleanOf demoMidnight).getD 14 default).timeStr = "00:00:01" ∧
      ((cleanOf demoMidnight).getD 8 default).tsNs <
        ((cleanOf demoMidnight).getD 14 default).tsNs := by
  refine ⟨by decide, by decide, by decide, by decide, by decide, by decide⟩
